import Mathlib

/-!
The git source step of ci-tools (`pkg/steps/git_source.go`)

A shallow embedding of `gitSourceStep` and a verification of its
specification.  Go strings are Lean strings, `fmt.Sprintf` with `%s` verbs
is concatenation, a nil-able pointer is an `Option`, and a pointer into the
slice `totalRefs` is the index it points at.
-/

namespace sets

/-- The `sets.Set[string]` of apimachinery: a Go map from keys to the empty
struct.  The embedding keeps the keys in insertion order; Go leaves the
iteration order unspecified, so only membership and multiplicity of
`UnsortedList` are meaningful. -/
structure Set where
  keys : List String
deriving DecidableEq, Repr

/-- The call `sets.New[string]()`: the empty set. -/
def New : Set := ⟨[]⟩

/-- Inserting one key into the underlying map: a key already present is kept once. -/
def Set.insertKey (s : Set) (item : String) : Set :=
  if item ∈ s.keys then s else ⟨s.keys ++ [item]⟩

/-- The method `Insert(items...)`: adds the items to the set, one after the other. -/
def Set.Insert (s : Set) (items : List String) : Set :=
  items.foldl Set.insertKey s

/-- The method `UnsortedList()`: the keys of the set, each once. -/
def Set.UnsortedList (s : Set) : List String := s.keys

end sets

namespace steps

/-- The fields of `prowapi.Refs` read by the step. -/
structure Refs where
  Org : String
  Repo : String
  BaseRef : String
  WorkDir : Bool
deriving DecidableEq, Repr

/-- The fields of `api.JobSpec` read by the step: the primary refs (a pointer,
possibly nil) and the extra refs. -/
structure JobSpec where
  Refs : Option steps.Refs
  ExtraRefs : List steps.Refs
deriving DecidableEq, Repr

/-- The type `api.ProjectDirectoryImageBuildInputs`; `Ref` is the reference selector. -/
structure ProjectDirectoryImageBuildInputs where
  ContextDir : String
  DockerfilePath : String
  DockerfileLiteral : Option String
  Ref : String
deriving DecidableEq, Repr

/-- The type `CloneAuthConfig`, which is declared outside this file of the
package: the name of its secret and its method `getCloneURI`, taken as a
field. -/
structure CloneAuthConfig where
  SecretName : String
  getCloneURI : String → String → String

/-- A handle that the step stores and passes on without reading it
(`api.ResourceConfiguration`, `BuildClient`, `kubernetes.PodClient`,
`*coreapi.Secret`, `*metrics.MetricsAgent`). -/
structure Handle where
  id : Nat
deriving DecidableEq, Repr

/-- Go errors met by the step: one made by `fmt.Errorf`, or one carrying a
reason of package `results` around another error. -/
inductive Error where
  | errorf (msg : String)
  | forReason (reason : String) (wrapped : Error)
deriving DecidableEq, Repr

/-- Modelled from the spec: `results.ForReason(reason).ForError(err)` is code
of this repository outside `git_source.go`.  The spec says a failure is
"surfaced with a fixed classification tag" and that `Run` can succeed: a nil
error stays nil, any other error is surfaced under the reason. -/
def results.ForReason.ForError (reason : String) (err : Option Error) : Option Error :=
  match err with
  | none => none
  | some e => some (Error.forReason reason e)

/-- Modelled from the spec: the constant `api.PipelineImageStreamTagReferenceRoot`
is declared outside `git_source.go`; the spec names the root output tag `root`. -/
def PipelineImageStreamTagReferenceRoot : String := "root"

/-- Modelled from the spec: `api.StepLink` and `api.InternalImageLink` are
declared outside `git_source.go`; the spec describes a link as a tagged value,
an internal image tag or another resource kind. -/
inductive StepLink where
  | InternalImageLink (tag : String)
  | otherLink (name : String)
deriving DecidableEq, Repr

/-- The type `buildapi.GitBuildSource`. -/
structure GitBuildSource where
  URI : String
  Ref : String
deriving DecidableEq, Repr

/-- The literal `buildapi.BuildSource` built in `run`, of type `BuildSourceGit`.
`SourceSecretName` is the argument handed to `getSourceSecretFromName`. -/
structure BuildSource where
  Dockerfile : Option String
  ContextDir : String
  SourceSecretName : String
  Git : GitBuildSource
deriving DecidableEq, Repr

/-- The arguments of the call of `buildFromSource` in `run`, in order. -/
structure BuildFromSourceArgs where
  jobSpec : JobSpec
  fromTag : String
  toTag : String
  source : BuildSource
  fromTagDigest : String
  dockerfilePath : String
  resources : Handle
  pullSecret : Option Handle
  buildArgs : List String
  ref : String
deriving DecidableEq, Repr

/-- One invocation of the build delegate `handleBuilds`: its arguments, the
build given by the arguments of `buildFromSource` and the build options by the
list handed to `newImageBuildOptions`. -/
structure HandleBuildsCall where
  buildClient : Handle
  podClient : Handle
  build : BuildFromSourceArgs
  metricsAgent : Handle
  architectures : List String
deriving DecidableEq, Repr

/-- What a run of the step yields: the returned error (nil is `none`) and the
invocations of the build delegate, in order. -/
structure RunResult where
  err : Option Error
  calls : List HandleBuildsCall
deriving DecidableEq, Repr

/-- The struct `gitSourceStep`.  The pointer `jobSpec` is taken to point at a
job spec: the methods dereference it without a nil check.  The map
`architectures` is taken to be allocated, as the constructor leaves it. -/
structure gitSourceStep where
  config : ProjectDirectoryImageBuildInputs
  resources : Handle
  buildClient : Handle
  podClient : Handle
  jobSpec : JobSpec
  cloneAuthConfig : Option CloneAuthConfig
  pullSecret : Option Handle
  architectures : sets.Set
  metricsAgent : Handle

/-- The slice `totalRefs` of `determineRefsWorkdir`: the primary refs, when
not nil, followed by the extra refs. -/
def totalRefs (refs : Option Refs) (extraRefs : List Refs) : List Refs :=
  (match refs with
   | some r => [r]
   | none => []) ++ extraRefs

/-- The string `orgRepo` of the loop body: `fmt.Sprintf("%s.%s", ref.Org, ref.Repo)`. -/
def orgRepo (ref : Refs) : String := ref.Org ++ "." ++ ref.Repo

/-- The `for i, ref := range` loop of `determineRefsWorkdir`, from index `i`
on, over the entries not yet visited; `matchingRef` is the index the fallback
pointer points at.  The result is the index of the returned pointer. -/
def determineRefsWorkdir.loop (selector : String) : List Refs → Nat → Nat → Nat
  | [], _, matchingRef => matchingRef
  | ref :: rest, i, matchingRef =>
    let isMatch : Bool := selector == orgRepo ref
    if (selector == "" || isMatch) && ref.WorkDir then i
    else if isMatch then determineRefsWorkdir.loop selector rest (i + 1) i
    else determineRefsWorkdir.loop selector rest (i + 1) matchingRef

/-- The index into `totalRefs` of the pointer that `determineRefsWorkdir`
returns, `none` for nil. -/
def gitSourceStep.determineRefsWorkdirIndex (s : gitSourceStep) (refs : Option Refs)
    (extraRefs : List Refs) : Option Nat :=
  if (totalRefs refs extraRefs).length = 0 then none
  else some (determineRefsWorkdir.loop s.config.Ref (totalRefs refs extraRefs) 0 0)

/-- The method `determineRefsWorkdir`: the entry of `totalRefs` that the
returned pointer points at, `none` for nil. -/
def gitSourceStep.determineRefsWorkdir (s : gitSourceStep) (refs : Option Refs)
    (extraRefs : List Refs) : Option Refs :=
  match s.determineRefsWorkdirIndex refs extraRefs with
  | none => none
  | some i => (totalRefs refs extraRefs)[i]?

/-- The method `Name`. -/
def gitSourceStep.Name (s : gitSourceStep) : String :=
  let root := PipelineImageStreamTagReferenceRoot
  if s.config.Ref ≠ "" then root ++ "-" ++ s.config.Ref else root

/-- The method `Description`. -/
def gitSourceStep.Description (_s : gitSourceStep) : String :=
  "Build git source code into an image and tag it as " ++ PipelineImageStreamTagReferenceRoot

/-- The method `Requires`. -/
def gitSourceStep.Requires (_s : gitSourceStep) : List StepLink := []

/-- The method `Creates`. -/
def gitSourceStep.Creates (s : gitSourceStep) : List StepLink :=
  let root := PipelineImageStreamTagReferenceRoot
  let root := if s.config.Ref ≠ "" then root ++ "-" ++ s.config.Ref else root
  [StepLink.InternalImageLink root]

/-- The method `Validate`. -/
def gitSourceStep.Validate (_s : gitSourceStep) : Option Error := none

/-- The method `ResolveMultiArch`. -/
def gitSourceStep.ResolveMultiArch (s : gitSourceStep) : sets.Set := s.architectures

/-- The method `AddArchitectures`: inserts into the set of the step, in place. -/
def gitSourceStep.AddArchitectures (s : gitSourceStep) (archs : List String) : gitSourceStep :=
  { s with architectures := s.architectures.Insert archs }

/-- The constructor `GitSourceStep`. -/
def GitSourceStep (config : ProjectDirectoryImageBuildInputs) (resources buildClient podClient : Handle)
    (jobSpec : JobSpec) (cloneAuthConfig : Option CloneAuthConfig) (pullSecret : Option Handle)
    (metricsAgent : Handle) : gitSourceStep :=
  { config := config, resources := resources, buildClient := buildClient, podClient := podClient,
    jobSpec := jobSpec, cloneAuthConfig := cloneAuthConfig, pullSecret := pullSecret,
    architectures := sets.New, metricsAgent := metricsAgent }

/-- The call of the build delegate made by `run` for the resolved `refs`. -/
def gitSourceStep.handleBuildsCall (s : gitSourceStep) (refs : Refs) : HandleBuildsCall :=
  let cloneURI := "https://github.com/" ++ refs.Org ++ "/" ++ refs.Repo ++ ".git"
  let secretName := ""
  let (cloneURI, secretName) :=
    match s.cloneAuthConfig with
    | some c => (c.getCloneURI refs.Org refs.Repo, c.SecretName)
    | none => (cloneURI, secretName)
  let root := PipelineImageStreamTagReferenceRoot
  let root := if s.config.Ref ≠ "" then root ++ "-" ++ s.config.Ref else root
  { buildClient := s.buildClient
    podClient := s.podClient
    build :=
      { jobSpec := s.jobSpec
        fromTag := ""
        toTag := root
        source :=
          { Dockerfile := s.config.DockerfileLiteral
            ContextDir := s.config.ContextDir
            SourceSecretName := secretName
            Git := { URI := cloneURI, Ref := refs.BaseRef } }
        fromTagDigest := ""
        dockerfilePath := s.config.DockerfilePath
        resources := s.resources
        pullSecret := s.pullSecret
        buildArgs := []
        ref := s.config.Ref }
    metricsAgent := s.metricsAgent
    architectures := s.architectures.UnsortedList }

/-- The method `run`, with the build delegate `handleBuilds` as a parameter:
the error returned and the delegate invocations made. -/
def gitSourceStep.run (s : gitSourceStep) (handleBuilds : HandleBuildsCall → Option Error) :
    RunResult :=
  match s.determineRefsWorkdir s.jobSpec.Refs s.jobSpec.ExtraRefs with
  | some refs =>
    let call := s.handleBuildsCall refs
    { err := handleBuilds call, calls := [call] }
  | none =>
    { err := some (Error.errorf "nothing to build source image from, no refs"), calls := [] }

/-- The method `Run`: `run` under the reason `building_image_from_source`. -/
def gitSourceStep.Run (s : gitSourceStep) (handleBuilds : HandleBuildsCall → Option Error) :
    RunResult :=
  let r := s.run handleBuilds
  { err := results.ForReason.ForError "building_image_from_source" r.err, calls := r.calls }

/-- A step built by the constructor with the given reference selector and
job spec, no clone authentication and no pull secret; used for concrete
evaluations. -/
def exampleStep (selector : String) (refs : Option Refs) (extraRefs : List Refs) : gitSourceStep :=
  GitSourceStep
    { ContextDir := "", DockerfilePath := "", DockerfileLiteral := none, Ref := selector }
    ⟨0⟩ ⟨1⟩ ⟨2⟩ { Refs := refs, ExtraRefs := extraRefs } none none ⟨3⟩

/-- A sequence of calls of `AddArchitectures` on a step, one per list, in order. -/
def gitSourceStep.AddArchitecturesSeq (s : gitSourceStep) (calls : List (List String)) :
    gitSourceStep :=
  calls.foldl gitSourceStep.AddArchitectures s

/-- The strong case of the scan of `determineRefsWorkdir`: the selector is
empty or equals `org.repo` of the candidate, and the candidate is flagged as
a workdir candidate. -/
def strongMatch (selector : String) (c : Refs) : Prop :=
  (selector = "" ∨ selector = orgRepo c) ∧ c.WorkDir = true

instance strongMatch.instDecidable (selector : String) (c : Refs) :
    Decidable (strongMatch selector c) := by
  unfold strongMatch; infer_instance

/-- The scan of section 4.2 of the specification, read literally: `matches` is
"selector is empty or equals organization.repository", a candidate with
`matches` and the workdir flag is returned at once, and the fallback moves
only when the selector is non-empty and equals organization.repository. -/
def specRefResolver.scan (selector : String) : List Refs → Nat → Nat → Nat
  | [], _, fallback => fallback
  | candidate :: rest, i, fallback =>
    if (selector = "" ∨ selector = candidate.Org ++ "." ++ candidate.Repo)
        ∧ candidate.WorkDir = true then i
    else if selector ≠ "" ∧ selector = candidate.Org ++ "." ++ candidate.Repo then
      specRefResolver.scan selector rest (i + 1) i
    else specRefResolver.scan selector rest (i + 1) fallback

/-- The position in the candidate list chosen by the algorithm of section 4.2
of the specification, `none` for an empty candidate list. -/
def specRefResolverIndex (selector : String) (primary : Option Refs) (auxiliary : List Refs) :
    Option Nat :=
  match primary.toList ++ auxiliary with
  | [] => none
  | first :: others => some (specRefResolver.scan selector (first :: others) 0 0)

/-- The ref resolver of section 4.2 of the specification: the candidate at the
chosen position. -/
def specRefResolver (selector : String) (primary : Option Refs) (auxiliary : List Refs) :
    Option Refs :=
  match specRefResolverIndex selector primary auxiliary with
  | none => none
  | some i => (primary.toList ++ auxiliary)[i]?

end steps

namespace steps

/-! ## The loop of `determineRefsWorkdir` -/

theorem orgRepo_ne_empty (c : Refs) : orgRepo c ≠ "" := by
  intro h
  have hlen := congrArg String.length h
  simp only [orgRepo, String.length_append] at hlen
  have hdot : ".".length = 1 := by decide
  have hemp : "".length = 0 := by decide
  omega

theorem loop_cons_strong (sel : String) (ref : Refs) (rest : List Refs) (i fb : Nat)
    (h : strongMatch sel ref) :
    determineRefsWorkdir.loop sel (ref :: rest) i fb = i := by
  obtain ⟨h1, h2⟩ := h
  rcases h1 with h1 | h1 <;> simp [determineRefsWorkdir.loop, h1, h2]

theorem loop_cons_match (sel : String) (ref : Refs) (rest : List Refs) (i fb : Nat)
    (h : ¬ strongMatch sel ref) (hm : sel = orgRepo ref) :
    determineRefsWorkdir.loop sel (ref :: rest) i fb
      = determineRefsWorkdir.loop sel rest (i + 1) i := by
  have hw : ref.WorkDir = false := by
    cases hwd : ref.WorkDir
    · rfl
    · exact absurd ⟨Or.inr hm, hwd⟩ h
  simp [determineRefsWorkdir.loop, hw, ← hm]

theorem loop_cons_skip (sel : String) (ref : Refs) (rest : List Refs) (i fb : Nat)
    (h : ¬ strongMatch sel ref) (hm : sel ≠ orgRepo ref) :
    determineRefsWorkdir.loop sel (ref :: rest) i fb
      = determineRefsWorkdir.loop sel rest (i + 1) fb := by
  by_cases hw : ref.WorkDir = true
  · have he : sel ≠ "" := fun he => h ⟨Or.inl he, hw⟩
    simp [determineRefsWorkdir.loop, hw, he, hm]
  · simp [determineRefsWorkdir.loop, hw, hm]

theorem loop_lt (sel : String) :
    ∀ (l : List Refs) (i fb : Nat), fb < i + l.length →
      determineRefsWorkdir.loop sel l i fb < i + l.length := by
  intro l
  induction l with
  | nil => intro i fb h; simpa [determineRefsWorkdir.loop] using h
  | cons ref rest ih =>
    intro i fb h
    by_cases hs : strongMatch sel ref
    · rw [loop_cons_strong sel ref rest i fb hs]; simp
    · by_cases hm : sel = orgRepo ref
      · rw [loop_cons_match sel ref rest i fb hs hm]
        have := ih (i + 1) i (by omega)
        simp only [List.length_cons]; omega
      · rw [loop_cons_skip sel ref rest i fb hs hm]
        have := ih (i + 1) fb (by simp only [List.length_cons] at h; omega)
        simp only [List.length_cons]; omega

theorem loop_no_match (sel : String) :
    ∀ (l : List Refs) (i fb : Nat), (∀ c ∈ l, ¬ strongMatch sel c) →
      (∀ c ∈ l, sel ≠ orgRepo c) → determineRefsWorkdir.loop sel l i fb = fb := by
  intro l
  induction l with
  | nil => intro i fb _ _; simp [determineRefsWorkdir.loop]
  | cons ref rest ih =>
    intro i fb hs hm
    rw [loop_cons_skip sel ref rest i fb (hs ref (List.mem_cons_self _ _))
      (hm ref (List.mem_cons_self _ _))]
    exact ih (i + 1) fb (fun c hc => hs c (List.mem_cons_of_mem _ hc))
      (fun c hc => hm c (List.mem_cons_of_mem _ hc))

theorem loop_first_strong (sel : String) :
    ∀ (l : List Refs) (i fb : Nat), (∃ c ∈ l, strongMatch sel c) →
      ∃ k c, determineRefsWorkdir.loop sel l i fb = i + k ∧ l[k]? = some c ∧ strongMatch sel c ∧
        ∀ j d, j < k → l[j]? = some d → ¬ strongMatch sel d := by
  intro l
  induction l with
  | nil => intro i fb h; obtain ⟨c, hc, _⟩ := h; simp at hc
  | cons ref rest ih =>
    intro i fb h
    by_cases hs : strongMatch sel ref
    · refine ⟨0, ref, ?_, by simp, hs, ?_⟩
      · rw [loop_cons_strong sel ref rest i fb hs]; simp
      · intro j d hj; omega
    · have hrest : ∃ c ∈ rest, strongMatch sel c := by
        obtain ⟨c, hc, hcs⟩ := h
        rcases List.mem_cons.mp hc with rfl | hc
        · exact absurd hcs hs
        · exact ⟨c, hc, hcs⟩
      have key : ∀ fb2, ∃ k c, determineRefsWorkdir.loop sel rest (i + 1) fb2 = i + k ∧
          (ref :: rest)[k]? = some c ∧ strongMatch sel c ∧
          ∀ j d, j < k → (ref :: rest)[j]? = some d → ¬ strongMatch sel d := by
        intro fb2
        obtain ⟨k, c, hk, hget, hcs, hmin⟩ := ih (i + 1) fb2 hrest
        refine ⟨k + 1, c, by omega, by simpa using hget, hcs, ?_⟩
        intro j d hj hd
        cases j with
        | zero =>
          simp at hd
          subst hd
          exact hs
        | succ j =>
          simp at hd
          exact hmin j d (by omega) hd
      by_cases hm : sel = orgRepo ref
      · rw [loop_cons_match sel ref rest i fb hs hm]; exact key i
      · rw [loop_cons_skip sel ref rest i fb hs hm]; exact key fb

theorem loop_last_match (sel : String) :
    ∀ (l : List Refs) (i fb : Nat), (∀ c ∈ l, ¬ strongMatch sel c) →
      (∃ c ∈ l, sel = orgRepo c) →
      ∃ k c, determineRefsWorkdir.loop sel l i fb = i + k ∧ l[k]? = some c ∧ sel = orgRepo c ∧
        ∀ j d, k < j → l[j]? = some d → sel ≠ orgRepo d := by
  intro l
  induction l with
  | nil => intro i fb _ h; obtain ⟨c, hc, _⟩ := h; simp at hc
  | cons ref rest ih =>
    intro i fb hs h
    have hsref : ¬ strongMatch sel ref := hs ref (List.mem_cons_self _ _)
    have hsrest : ∀ c ∈ rest, ¬ strongMatch sel c := fun c hc => hs c (List.mem_cons_of_mem _ hc)
    by_cases hrest : ∃ c ∈ rest, sel = orgRepo c
    · have key : ∀ fb2, ∃ k c, determineRefsWorkdir.loop sel rest (i + 1) fb2 = i + k ∧
          (ref :: rest)[k]? = some c ∧ sel = orgRepo c ∧
          ∀ j d, k < j → (ref :: rest)[j]? = some d → sel ≠ orgRepo d := by
        intro fb2
        obtain ⟨k, c, hk, hget, hcm, hmax⟩ := ih (i + 1) fb2 hsrest hrest
        refine ⟨k + 1, c, by omega, by simpa using hget, hcm, ?_⟩
        intro j d hj hd
        cases j with
        | zero => omega
        | succ j =>
          simp at hd
          exact hmax j d (by omega) hd
      by_cases hm : sel = orgRepo ref
      · rw [loop_cons_match sel ref rest i fb hsref hm]; exact key i
      · rw [loop_cons_skip sel ref rest i fb hsref hm]; exact key fb
    · have hnone : ∀ c ∈ rest, sel ≠ orgRepo c := fun c hc hcm => hrest ⟨c, hc, hcm⟩
      have hm : sel = orgRepo ref := by
        obtain ⟨c, hc, hcm⟩ := h
        rcases List.mem_cons.mp hc with rfl | hc
        · exact hcm
        · exact absurd hcm (hnone c hc)
      refine ⟨0, ref, ?_, by simp, hm, ?_⟩
      · rw [loop_cons_match sel ref rest i fb hsref hm,
          loop_no_match sel rest (i + 1) i hsrest hnone]
        simp
      · intro j d hj hd
        cases j with
        | zero => omega
        | succ j =>
          simp at hd
          exact hnone d (List.getElem?_mem hd)

theorem totalRefs_eq_nil_iff (refs : Option Refs) (extraRefs : List Refs) :
    totalRefs refs extraRefs = [] ↔ refs = none ∧ extraRefs = [] := by
  cases refs <;> simp [totalRefs]

theorem determineRefsWorkdirIndex_of_ne_nil (s : gitSourceStep) (refs : Option Refs)
    (extraRefs : List Refs) (h : totalRefs refs extraRefs ≠ []) :
    s.determineRefsWorkdirIndex refs extraRefs
      = some (determineRefsWorkdir.loop s.config.Ref (totalRefs refs extraRefs) 0 0) := by
  have hlen : (totalRefs refs extraRefs).length ≠ 0 := by
    simpa [List.length_eq_zero] using h
  simp [gitSourceStep.determineRefsWorkdirIndex, hlen]

theorem determineRefsWorkdir_of_index (s : gitSourceStep) (refs : Option Refs)
    (extraRefs : List Refs) (i : Nat)
    (h : s.determineRefsWorkdirIndex refs extraRefs = some i) :
    s.determineRefsWorkdir refs extraRefs = (totalRefs refs extraRefs)[i]? := by
  simp [gitSourceStep.determineRefsWorkdir, h]

theorem determineRefsWorkdir_some_of_ne_nil (s : gitSourceStep) (refs : Option Refs)
    (extraRefs : List Refs) (h : totalRefs refs extraRefs ≠ []) :
    ∃ i r, s.determineRefsWorkdirIndex refs extraRefs = some i ∧
      s.determineRefsWorkdir refs extraRefs = some r ∧ (totalRefs refs extraRefs)[i]? = some r := by
  have hidx := determineRefsWorkdirIndex_of_ne_nil s refs extraRefs h
  have hpos : 0 < 0 + (totalRefs refs extraRefs).length := by
    have := List.length_pos.mpr h
    omega
  have hlt := loop_lt s.config.Ref (totalRefs refs extraRefs) 0 0 hpos
  have hlt2 : determineRefsWorkdir.loop s.config.Ref (totalRefs refs extraRefs) 0 0
      < (totalRefs refs extraRefs).length := by omega
  refine ⟨_, (totalRefs refs extraRefs)[determineRefsWorkdir.loop s.config.Ref
    (totalRefs refs extraRefs) 0 0], hidx, ?_, ?_⟩
  · rw [determineRefsWorkdir_of_index s refs extraRefs _ hidx]
    exact List.getElem?_eq_getElem hlt2
  · exact List.getElem?_eq_getElem hlt2

theorem scan_eq_loop (sel : String) :
    ∀ (l : List Refs) (i fb : Nat),
      specRefResolver.scan sel l i fb = determineRefsWorkdir.loop sel l i fb := by
  intro l
  induction l with
  | nil => intro i fb; simp [specRefResolver.scan, determineRefsWorkdir.loop]
  | cons ref rest ih =>
    intro i fb
    have hne : sel = ref.Org ++ "." ++ ref.Repo → sel ≠ "" := by
      intro h he
      exact orgRepo_ne_empty ref (by rw [orgRepo, ← h, he])
    by_cases hs : strongMatch sel ref
    · rw [loop_cons_strong sel ref rest i fb hs]
      have hs2 : (sel = "" ∨ sel = ref.Org ++ "." ++ ref.Repo) ∧ ref.WorkDir = true := hs
      simp only [specRefResolver.scan, hs2, and_self, if_true]
    · have hs2 : ¬ ((sel = "" ∨ sel = ref.Org ++ "." ++ ref.Repo) ∧ ref.WorkDir = true) := hs
      by_cases hm : sel = orgRepo ref
      · rw [loop_cons_match sel ref rest i fb hs hm]
        have hm2 : sel = ref.Org ++ "." ++ ref.Repo := hm
        have hg : sel ≠ "" ∧ sel = ref.Org ++ "." ++ ref.Repo := ⟨hne hm2, hm2⟩
        simp only [specRefResolver.scan, if_neg hs2, if_pos hg]
        exact ih (i + 1) i
      · rw [loop_cons_skip sel ref rest i fb hs hm]
        have hg : ¬ (sel ≠ "" ∧ sel = ref.Org ++ "." ++ ref.Repo) := fun hg => hm hg.2
        simp only [specRefResolver.scan, if_neg hs2, if_neg hg]
        exact ih (i + 1) fb

theorem toList_append_eq_totalRefs (refs : Option Refs) (extraRefs : List Refs) :
    refs.toList ++ extraRefs = totalRefs refs extraRefs := by
  cases refs <;> simp [totalRefs, Option.toList]

theorem specRefResolverIndex_eq (s : gitSourceStep) (refs : Option Refs)
    (extraRefs : List Refs) :
    specRefResolverIndex s.config.Ref refs extraRefs
      = s.determineRefsWorkdirIndex refs extraRefs := by
  unfold specRefResolverIndex gitSourceStep.determineRefsWorkdirIndex
  rw [toList_append_eq_totalRefs]
  cases h : totalRefs refs extraRefs with
  | nil => simp
  | cons a l => simp [scan_eq_loop]

/-! ## The ref resolver -/

/-- C1: `determineRefsWorkdir` returns nil exactly when the primary ref is
absent and the list of auxiliary refs is empty; in every other case it returns
a ref that is an element of the candidate list, the primary ref (if present)
followed by the auxiliary refs. -/
theorem determineRefsWorkdir_none_iff_and_mem (s : gitSourceStep) (refs : Option Refs)
    (extraRefs : List Refs) :
    (s.determineRefsWorkdir refs extraRefs = none ↔ refs = none ∧ extraRefs = []) ∧
    (¬ (refs = none ∧ extraRefs = []) →
      ∃ r, s.determineRefsWorkdir refs extraRefs = some r ∧
        r ∈ (match refs with
             | some p => [p]
             | none => []) ++ extraRefs) := by
  have hsome : ¬ (refs = none ∧ extraRefs = []) →
      ∃ r, s.determineRefsWorkdir refs extraRefs = some r ∧ r ∈ totalRefs refs extraRefs := by
    intro h
    have hne : totalRefs refs extraRefs ≠ [] := fun he =>
      h ((totalRefs_eq_nil_iff refs extraRefs).mp he)
    obtain ⟨i, r, _, hr, hget⟩ := determineRefsWorkdir_some_of_ne_nil s refs extraRefs hne
    exact ⟨r, hr, List.getElem?_mem hget⟩
  refine ⟨⟨?_, ?_⟩, hsome⟩
  · intro hnone
    by_contra h
    obtain ⟨r, hr, _⟩ := hsome h
    rw [hnone] at hr
    exact Option.noConfusion hr
  · intro h
    have he : totalRefs refs extraRefs = [] := (totalRefs_eq_nil_iff refs extraRefs).mpr h
    simp [gitSourceStep.determineRefsWorkdir, gitSourceStep.determineRefsWorkdirIndex, he]

/-- C2: `determineRefsWorkdir` equals the algorithm of section 4.2 of the
specification read literally, both in the position chosen and in the ref
returned; and the test of the code for moving the fallback, selector equal to
`org.repo`, holds exactly when the guarded test of the specification does,
selector non-empty and equal to `org.repo`. -/
theorem determineRefsWorkdir_eq_specRefResolver (s : gitSourceStep) (refs : Option Refs)
    (extraRefs : List Refs) :
    s.determineRefsWorkdirIndex refs extraRefs = specRefResolverIndex s.config.Ref refs extraRefs ∧
    s.determineRefsWorkdir refs extraRefs = specRefResolver s.config.Ref refs extraRefs ∧
    ∀ c : Refs, (s.config.Ref == c.Org ++ "." ++ c.Repo) = true ↔
      (s.config.Ref ≠ "" ∧ s.config.Ref = c.Org ++ "." ++ c.Repo) := by
  refine ⟨(specRefResolverIndex_eq s refs extraRefs).symm, ?_, ?_⟩
  · unfold specRefResolver gitSourceStep.determineRefsWorkdir
    rw [specRefResolverIndex_eq, toList_append_eq_totalRefs]
  · intro c
    constructor
    · intro h
      have h2 : s.config.Ref = c.Org ++ "." ++ c.Repo := by simpa using h
      exact ⟨fun he => orgRepo_ne_empty c (by rw [orgRepo, ← h2, he]), h2⟩
    · intro h
      simpa using h.2

/-- C3: if some candidate is flagged as a workdir candidate and the selector
is empty or equals its `org.repo`, then `determineRefsWorkdir` returns the
first such candidate of the list, the one at the smallest index, whatever
comes after it. -/
theorem determineRefsWorkdir_first_strong (s : gitSourceStep) (refs : Option Refs)
    (extraRefs : List Refs)
    (h : ∃ c ∈ totalRefs refs extraRefs,
      (s.config.Ref = "" ∨ s.config.Ref = orgRepo c) ∧ c.WorkDir = true) :
    ∃ i c, s.determineRefsWorkdirIndex refs extraRefs = some i ∧
      s.determineRefsWorkdir refs extraRefs = some c ∧
      (totalRefs refs extraRefs)[i]? = some c ∧
      ((s.config.Ref = "" ∨ s.config.Ref = orgRepo c) ∧ c.WorkDir = true) ∧
      ∀ j d, j < i → (totalRefs refs extraRefs)[j]? = some d →
        ¬ ((s.config.Ref = "" ∨ s.config.Ref = orgRepo d) ∧ d.WorkDir = true) := by
  have hne : totalRefs refs extraRefs ≠ [] := by
    obtain ⟨c, hc, _⟩ := h
    exact List.ne_nil_of_mem hc
  have hidx := determineRefsWorkdirIndex_of_ne_nil s refs extraRefs hne
  obtain ⟨k, c, hk, hget, hcs, hmin⟩ :=
    loop_first_strong s.config.Ref (totalRefs refs extraRefs) 0 0 h
  rw [Nat.zero_add] at hk
  rw [hk] at hidx
  exact ⟨k, c, hidx, by rw [determineRefsWorkdir_of_index s refs extraRefs k hidx, hget],
    hget, hcs, hmin⟩

/-- C3 at refs `[{A,B,workdir=false}, {C,D,workdir=true}, {C,D,workdir=true}]`
and selector `C.D`: the entry at index 1 is returned. -/
theorem determineRefsWorkdir_first_strong_witness :
    (∃ c ∈ totalRefs none [⟨"A", "B", "main", false⟩, ⟨"C", "D", "main", true⟩,
        ⟨"C", "D", "main", true⟩],
      ((exampleStep "C.D" none []).config.Ref = ""
        ∨ (exampleStep "C.D" none []).config.Ref = orgRepo c) ∧ c.WorkDir = true) ∧
    (∃ i c, (exampleStep "C.D" none []).determineRefsWorkdirIndex none
        [⟨"A", "B", "main", false⟩, ⟨"C", "D", "main", true⟩, ⟨"C", "D", "main", true⟩] = some i ∧
      (exampleStep "C.D" none []).determineRefsWorkdir none
        [⟨"A", "B", "main", false⟩, ⟨"C", "D", "main", true⟩, ⟨"C", "D", "main", true⟩] = some c ∧
      (totalRefs none [⟨"A", "B", "main", false⟩, ⟨"C", "D", "main", true⟩,
        ⟨"C", "D", "main", true⟩])[i]? = some c ∧
      (((exampleStep "C.D" none []).config.Ref = ""
        ∨ (exampleStep "C.D" none []).config.Ref = orgRepo c) ∧ c.WorkDir = true) ∧
      ∀ j d, j < i → (totalRefs none [⟨"A", "B", "main", false⟩, ⟨"C", "D", "main", true⟩,
        ⟨"C", "D", "main", true⟩])[j]? = some d →
        ¬ (((exampleStep "C.D" none []).config.Ref = ""
          ∨ (exampleStep "C.D" none []).config.Ref = orgRepo d) ∧ d.WorkDir = true)) ∧
    (exampleStep "C.D" none []).determineRefsWorkdirIndex none
      [⟨"A", "B", "main", false⟩, ⟨"C", "D", "main", true⟩, ⟨"C", "D", "main", true⟩] = some 1 :=
  ⟨by decide,
   determineRefsWorkdir_first_strong (exampleStep "C.D" none []) none
     [⟨"A", "B", "main", false⟩, ⟨"C", "D", "main", true⟩, ⟨"C", "D", "main", true⟩] (by decide),
   by decide⟩

/-- C4: for a non-empty selector, when no candidate is both flagged workdir and
has `org.repo` equal to the selector but some candidate has `org.repo` equal to
the selector, `determineRefsWorkdir` returns the last candidate of the list
(largest index) whose `org.repo` equals the selector. -/
theorem determineRefsWorkdir_last_match (s : gitSourceStep) (refs : Option Refs)
    (extraRefs : List Refs) (hsel : s.config.Ref ≠ "")
    (hno : ∀ c ∈ totalRefs refs extraRefs, ¬ (c.WorkDir = true ∧ orgRepo c = s.config.Ref))
    (hex : ∃ c ∈ totalRefs refs extraRefs, orgRepo c = s.config.Ref) :
    ∃ i c, s.determineRefsWorkdirIndex refs extraRefs = some i ∧
      s.determineRefsWorkdir refs extraRefs = some c ∧
      (totalRefs refs extraRefs)[i]? = some c ∧ orgRepo c = s.config.Ref ∧
      ∀ j d, i < j → (totalRefs refs extraRefs)[j]? = some d → orgRepo d ≠ s.config.Ref := by
  have hne : totalRefs refs extraRefs ≠ [] := by
    obtain ⟨c, hc, _⟩ := hex
    exact List.ne_nil_of_mem hc
  have hidx := determineRefsWorkdirIndex_of_ne_nil s refs extraRefs hne
  have hns : ∀ c ∈ totalRefs refs extraRefs, ¬ strongMatch s.config.Ref c := by
    intro c hc hs
    rcases hs.1 with he | hm
    · exact hsel he
    · exact hno c hc ⟨hs.2, hm.symm⟩
  have hex2 : ∃ c ∈ totalRefs refs extraRefs, s.config.Ref = orgRepo c := by
    obtain ⟨c, hc, hm⟩ := hex
    exact ⟨c, hc, hm.symm⟩
  obtain ⟨k, c, hk, hget, hcm, hmax⟩ :=
    loop_last_match s.config.Ref (totalRefs refs extraRefs) 0 0 hns hex2
  rw [Nat.zero_add] at hk
  rw [hk] at hidx
  exact ⟨k, c, hidx, by rw [determineRefsWorkdir_of_index s refs extraRefs k hidx, hget],
    hget, hcm.symm, fun j d hj hd hm => hmax j d hj hd hm.symm⟩

/-- C4 at refs `[{A,B,workdir=false}, {A,B,workdir=false}]` and selector `A.B`:
the entry at index 1 is returned. -/
theorem determineRefsWorkdir_last_match_witness :
    (exampleStep "A.B" none []).config.Ref ≠ "" ∧
    (∀ c ∈ totalRefs none [⟨"A", "B", "main", false⟩, ⟨"A", "B", "main", false⟩],
      ¬ (c.WorkDir = true ∧ orgRepo c = (exampleStep "A.B" none []).config.Ref)) ∧
    (∃ c ∈ totalRefs none [⟨"A", "B", "main", false⟩, ⟨"A", "B", "main", false⟩],
      orgRepo c = (exampleStep "A.B" none []).config.Ref) ∧
    (∃ i c, (exampleStep "A.B" none []).determineRefsWorkdirIndex none
        [⟨"A", "B", "main", false⟩, ⟨"A", "B", "main", false⟩] = some i ∧
      (exampleStep "A.B" none []).determineRefsWorkdir none
        [⟨"A", "B", "main", false⟩, ⟨"A", "B", "main", false⟩] = some c ∧
      (totalRefs none [⟨"A", "B", "main", false⟩, ⟨"A", "B", "main", false⟩])[i]? = some c ∧
      orgRepo c = (exampleStep "A.B" none []).config.Ref ∧
      ∀ j d, i < j →
        (totalRefs none [⟨"A", "B", "main", false⟩, ⟨"A", "B", "main", false⟩])[j]? = some d →
        orgRepo d ≠ (exampleStep "A.B" none []).config.Ref) ∧
    (exampleStep "A.B" none []).determineRefsWorkdirIndex none
      [⟨"A", "B", "main", false⟩, ⟨"A", "B", "main", false⟩] = some 1 :=
  ⟨by decide, by decide, by decide,
   determineRefsWorkdir_last_match (exampleStep "A.B" none []) none
     [⟨"A", "B", "main", false⟩, ⟨"A", "B", "main", false⟩] (by decide) (by decide) (by decide),
   by decide⟩

/-- C5: for a non-empty selector, if some candidate has `org.repo` equal to
the selector, then the ref returned by `determineRefsWorkdir` has `org.repo`
equal to the selector; so a workdir-flagged candidate that does not match the
selector is not returned, even when it comes first. -/
theorem determineRefsWorkdir_matches_selector (s : gitSourceStep) (refs : Option Refs)
    (extraRefs : List Refs) (hsel : s.config.Ref ≠ "")
    (hex : ∃ c ∈ totalRefs refs extraRefs, orgRepo c = s.config.Ref) :
    (∃ r, s.determineRefsWorkdir refs extraRefs = some r ∧ orgRepo r = s.config.Ref) ∧
    ∀ c, c.WorkDir = true → orgRepo c ≠ s.config.Ref →
      s.determineRefsWorkdir refs extraRefs ≠ some c := by
  have hne : totalRefs refs extraRefs ≠ [] := by
    obtain ⟨c, hc, _⟩ := hex
    exact List.ne_nil_of_mem hc
  have hidx := determineRefsWorkdirIndex_of_ne_nil s refs extraRefs hne
  have hmain : ∃ r, s.determineRefsWorkdir refs extraRefs = some r ∧ orgRepo r = s.config.Ref := by
    by_cases hst : ∃ c ∈ totalRefs refs extraRefs, strongMatch s.config.Ref c
    · obtain ⟨k, c, hk, hget, hcs, _⟩ :=
        loop_first_strong s.config.Ref (totalRefs refs extraRefs) 0 0 hst
      rw [Nat.zero_add] at hk
      rw [hk] at hidx
      refine ⟨c, by rw [determineRefsWorkdir_of_index s refs extraRefs k hidx, hget], ?_⟩
      rcases hcs.1 with he | hm
      · exact absurd he hsel
      · exact hm.symm
    · have hns : ∀ c ∈ totalRefs refs extraRefs, ¬ strongMatch s.config.Ref c :=
        fun c hc hs => hst ⟨c, hc, hs⟩
      have hex2 : ∃ c ∈ totalRefs refs extraRefs, s.config.Ref = orgRepo c := by
        obtain ⟨c, hc, hm⟩ := hex
        exact ⟨c, hc, hm.symm⟩
      obtain ⟨k, c, hk, hget, hcm, _⟩ :=
        loop_last_match s.config.Ref (totalRefs refs extraRefs) 0 0 hns hex2
      rw [Nat.zero_add] at hk
      rw [hk] at hidx
      exact ⟨c, by rw [determineRefsWorkdir_of_index s refs extraRefs k hidx, hget], hcm.symm⟩
  refine ⟨hmain, ?_⟩
  intro c _ hc hret
  obtain ⟨r, hr, hrm⟩ := hmain
  rw [hr] at hret
  cases hret
  exact hc hrm

/-- C5 at refs `[{A,B,workdir=true}, {C,D,workdir=false}]` and selector `C.D`:
the ref `{C,D}` is returned. -/
theorem determineRefsWorkdir_matches_selector_witness :
    (exampleStep "C.D" none []).config.Ref ≠ "" ∧
    (∃ c ∈ totalRefs none [⟨"A", "B", "main", true⟩, ⟨"C", "D", "main", false⟩],
      orgRepo c = (exampleStep "C.D" none []).config.Ref) ∧
    ((∃ r, (exampleStep "C.D" none []).determineRefsWorkdir none
        [⟨"A", "B", "main", true⟩, ⟨"C", "D", "main", false⟩] = some r ∧
        orgRepo r = (exampleStep "C.D" none []).config.Ref) ∧
      ∀ c, c.WorkDir = true → orgRepo c ≠ (exampleStep "C.D" none []).config.Ref →
        (exampleStep "C.D" none []).determineRefsWorkdir none
          [⟨"A", "B", "main", true⟩, ⟨"C", "D", "main", false⟩] ≠ some c) ∧
    (exampleStep "C.D" none []).determineRefsWorkdir none
      [⟨"A", "B", "main", true⟩, ⟨"C", "D", "main", false⟩] = some ⟨"C", "D", "main", false⟩ :=
  ⟨by decide, by decide,
   determineRefsWorkdir_matches_selector (exampleStep "C.D" none []) none
     [⟨"A", "B", "main", true⟩, ⟨"C", "D", "main", false⟩] (by decide) (by decide),
   by decide⟩

/-- C6: for a non-empty candidate list and the empty selector,
`determineRefsWorkdir` returns the first candidate flagged as a workdir
candidate when some candidate is flagged, and the first candidate of the list
when none is. -/
theorem determineRefsWorkdir_empty_selector (s : gitSourceStep) (refs : Option Refs)
    (extraRefs : List Refs) (hne : totalRefs refs extraRefs ≠ []) (hsel : s.config.Ref = "") :
    ((∃ c ∈ totalRefs refs extraRefs, c.WorkDir = true) →
      ∃ i c, s.determineRefsWorkdirIndex refs extraRefs = some i ∧
        s.determineRefsWorkdir refs extraRefs = some c ∧
        (totalRefs refs extraRefs)[i]? = some c ∧ c.WorkDir = true ∧
        ∀ j d, j < i → (totalRefs refs extraRefs)[j]? = some d → d.WorkDir = false) ∧
    ((∀ c ∈ totalRefs refs extraRefs, c.WorkDir = false) →
      s.determineRefsWorkdirIndex refs extraRefs = some 0 ∧
      s.determineRefsWorkdir refs extraRefs = (totalRefs refs extraRefs).head?) := by
  have hidx := determineRefsWorkdirIndex_of_ne_nil s refs extraRefs hne
  constructor
  · intro hex
    have hst : ∃ c ∈ totalRefs refs extraRefs, strongMatch s.config.Ref c := by
      obtain ⟨c, hc, hw⟩ := hex
      exact ⟨c, hc, Or.inl hsel, hw⟩
    obtain ⟨k, c, hk, hget, hcs, hmin⟩ :=
      loop_first_strong s.config.Ref (totalRefs refs extraRefs) 0 0 hst
    rw [Nat.zero_add] at hk
    rw [hk] at hidx
    refine ⟨k, c, hidx, by rw [determineRefsWorkdir_of_index s refs extraRefs k hidx, hget],
      hget, hcs.2, ?_⟩
    intro j d hj hd
    cases hw : d.WorkDir
    · rfl
    · exact absurd ⟨Or.inl hsel, hw⟩ (hmin j d hj hd)
  · intro hall
    have hns : ∀ c ∈ totalRefs refs extraRefs, ¬ strongMatch s.config.Ref c := by
      intro c hc hs
      have := hall c hc
      rw [hs.2] at this
      exact Bool.noConfusion this
    have hnm : ∀ c ∈ totalRefs refs extraRefs, s.config.Ref ≠ orgRepo c := by
      intro c _ hm
      exact orgRepo_ne_empty c (by rw [← hm, hsel])
    rw [loop_no_match s.config.Ref (totalRefs refs extraRefs) 0 0 hns hnm] at hidx
    exact ⟨hidx, by rw [determineRefsWorkdir_of_index s refs extraRefs 0 hidx,
      List.head?_eq_getElem?]⟩

/-- C6 at refs `[{A,B,workdir=false}, {C,D,workdir=true}]` and the empty
selector: the ref `{C,D}` is returned. -/
theorem determineRefsWorkdir_empty_selector_witness :
    totalRefs none [⟨"A", "B", "main", false⟩, ⟨"C", "D", "main", true⟩] ≠ [] ∧
    (exampleStep "" none []).config.Ref = "" ∧
    (((∃ c ∈ totalRefs none [⟨"A", "B", "main", false⟩, ⟨"C", "D", "main", true⟩],
        c.WorkDir = true) →
      ∃ i c, (exampleStep "" none []).determineRefsWorkdirIndex none
          [⟨"A", "B", "main", false⟩, ⟨"C", "D", "main", true⟩] = some i ∧
        (exampleStep "" none []).determineRefsWorkdir none
          [⟨"A", "B", "main", false⟩, ⟨"C", "D", "main", true⟩] = some c ∧
        (totalRefs none [⟨"A", "B", "main", false⟩, ⟨"C", "D", "main", true⟩])[i]? = some c ∧
        c.WorkDir = true ∧
        ∀ j d, j < i →
          (totalRefs none [⟨"A", "B", "main", false⟩, ⟨"C", "D", "main", true⟩])[j]? = some d →
          d.WorkDir = false) ∧
     ((∀ c ∈ totalRefs none [⟨"A", "B", "main", false⟩, ⟨"C", "D", "main", true⟩],
        c.WorkDir = false) →
      (exampleStep "" none []).determineRefsWorkdirIndex none
        [⟨"A", "B", "main", false⟩, ⟨"C", "D", "main", true⟩] = some 0 ∧
      (exampleStep "" none []).determineRefsWorkdir none
        [⟨"A", "B", "main", false⟩, ⟨"C", "D", "main", true⟩]
        = (totalRefs none [⟨"A", "B", "main", false⟩, ⟨"C", "D", "main", true⟩]).head?)) ∧
    (exampleStep "" none []).determineRefsWorkdir none
      [⟨"A", "B", "main", false⟩, ⟨"C", "D", "main", true⟩] = some ⟨"C", "D", "main", true⟩ :=
  ⟨by decide, by decide,
   determineRefsWorkdir_empty_selector (exampleStep "" none []) none
     [⟨"A", "B", "main", false⟩, ⟨"C", "D", "main", true⟩] (by decide) (by decide),
   by decide⟩

/-- C7: for a non-empty candidate list and a non-empty selector that equals
the `org.repo` of no candidate, `determineRefsWorkdir` returns the very first
candidate of the list, whichever candidates are flagged as workdir
candidates. -/
theorem determineRefsWorkdir_no_selector_match (s : gitSourceStep) (refs : Option Refs)
    (extraRefs : List Refs) (hne : totalRefs refs extraRefs ≠ []) (hsel : s.config.Ref ≠ "")
    (hno : ∀ c ∈ totalRefs refs extraRefs, orgRepo c ≠ s.config.Ref) :
    s.determineRefsWorkdirIndex refs extraRefs = some 0 ∧
    s.determineRefsWorkdir refs extraRefs = (totalRefs refs extraRefs).head? := by
  have hidx := determineRefsWorkdirIndex_of_ne_nil s refs extraRefs hne
  have hns : ∀ c ∈ totalRefs refs extraRefs, ¬ strongMatch s.config.Ref c := by
    intro c hc hs
    rcases hs.1 with he | hm
    · exact hsel he
    · exact hno c hc hm.symm
  have hnm : ∀ c ∈ totalRefs refs extraRefs, s.config.Ref ≠ orgRepo c :=
    fun c hc hm => hno c hc hm.symm
  rw [loop_no_match s.config.Ref (totalRefs refs extraRefs) 0 0 hns hnm] at hidx
  exact ⟨hidx, by rw [determineRefsWorkdir_of_index s refs extraRefs 0 hidx,
    List.head?_eq_getElem?]⟩

/-- C7 at refs `[{A,B,workdir=false}, {C,D,workdir=true}]` and selector `E.F`:
the first entry is returned although the second is flagged workdir. -/
theorem determineRefsWorkdir_no_selector_match_witness :
    totalRefs none [⟨"A", "B", "main", false⟩, ⟨"C", "D", "main", true⟩] ≠ [] ∧
    (exampleStep "E.F" none []).config.Ref ≠ "" ∧
    (∀ c ∈ totalRefs none [⟨"A", "B", "main", false⟩, ⟨"C", "D", "main", true⟩],
      orgRepo c ≠ (exampleStep "E.F" none []).config.Ref) ∧
    ((exampleStep "E.F" none []).determineRefsWorkdirIndex none
        [⟨"A", "B", "main", false⟩, ⟨"C", "D", "main", true⟩] = some 0 ∧
      (exampleStep "E.F" none []).determineRefsWorkdir none
        [⟨"A", "B", "main", false⟩, ⟨"C", "D", "main", true⟩]
        = (totalRefs none [⟨"A", "B", "main", false⟩, ⟨"C", "D", "main", true⟩]).head?) :=
  ⟨by decide, by decide, by decide,
   determineRefsWorkdir_no_selector_match (exampleStep "E.F" none []) none
     [⟨"A", "B", "main", false⟩, ⟨"C", "D", "main", true⟩] (by decide) (by decide) (by decide)⟩

/-! ## The links created and the run of the step -/

/-- C8: `Creates` returns a list of exactly one link, an internal-image link
whose tag is `root` when the reference selector is empty and `root-` followed
by the selector otherwise; the selector `org.repo` gives `root-org.repo`. -/
theorem Creates_single_root_link (s : gitSourceStep) :
    s.Creates.length = 1 ∧
    s.Creates = [StepLink.InternalImageLink
      (if s.config.Ref = "" then "root" else "root-" ++ s.config.Ref)] ∧
    (exampleStep "org.repo" none []).Creates = [StepLink.InternalImageLink "root-org.repo"] ∧
    (exampleStep "" none []).Creates = [StepLink.InternalImageLink "root"] := by
  refine ⟨rfl, ?_, rfl, rfl⟩
  by_cases h : s.config.Ref = ""
  · simp [gitSourceStep.Creates, h, PipelineImageStreamTagReferenceRoot]
  · have hcat : PipelineImageStreamTagReferenceRoot ++ "-" ++ s.config.Ref
        = "root-" ++ s.config.Ref := by
      rw [show PipelineImageStreamTagReferenceRoot ++ "-" = "root-" from by decide]
    simp [gitSourceStep.Creates, h, hcat]

theorem run_of_no_refs (s : gitSourceStep) (handleBuilds : HandleBuildsCall → Option Error)
    (hrefs : s.jobSpec.Refs = none) (hextra : s.jobSpec.ExtraRefs = []) :
    s.run handleBuilds
      = { err := some (Error.errorf "nothing to build source image from, no refs"), calls := [] } := by
  have hnone : s.determineRefsWorkdir s.jobSpec.Refs s.jobSpec.ExtraRefs = none := by
    simp [gitSourceStep.determineRefsWorkdir, gitSourceStep.determineRefsWorkdirIndex,
      hrefs, hextra, totalRefs]
  simp [gitSourceStep.run, hnone]

theorem run_of_refs (s : gitSourceStep) (handleBuilds : HandleBuildsCall → Option Error)
    (h : s.jobSpec.Refs ≠ none ∨ s.jobSpec.ExtraRefs ≠ []) :
    ∃ r, s.determineRefsWorkdir s.jobSpec.Refs s.jobSpec.ExtraRefs = some r ∧
      s.run handleBuilds
        = { err := handleBuilds (s.handleBuildsCall r), calls := [s.handleBuildsCall r] } := by
  have hne : totalRefs s.jobSpec.Refs s.jobSpec.ExtraRefs ≠ [] := by
    intro he
    have := (totalRefs_eq_nil_iff _ _).mp he
    rcases h with h | h
    · exact h this.1
    · exact h this.2
  obtain ⟨_, r, _, hr, _⟩ :=
    determineRefsWorkdir_some_of_ne_nil s s.jobSpec.Refs s.jobSpec.ExtraRefs hne
  exact ⟨r, hr, by simp [gitSourceStep.run, hr]⟩

/-- C9: for a step whose job spec has no primary ref and no auxiliary refs,
whatever the rest of the step and whatever the delegate would answer, `Run`
fails with the error `nothing to build source image from, no refs` surfaced
under the reason `building_image_from_source`, and the build delegate is not
invoked. -/
theorem Run_no_refs_fails_without_delegate (s : gitSourceStep)
    (handleBuilds : HandleBuildsCall → Option Error)
    (hrefs : s.jobSpec.Refs = none) (hextra : s.jobSpec.ExtraRefs = []) :
    (s.Run handleBuilds).err
      = some (Error.forReason "building_image_from_source"
          (Error.errorf "nothing to build source image from, no refs")) ∧
    (s.Run handleBuilds).calls = [] := by
  simp [gitSourceStep.Run, run_of_no_refs s handleBuilds hrefs hextra,
    results.ForReason.ForError]

/-- C9 at a step without refs and a delegate that would succeed. -/
theorem Run_no_refs_fails_without_delegate_witness :
    (exampleStep "org.repo" none []).jobSpec.Refs = none ∧
    (exampleStep "org.repo" none []).jobSpec.ExtraRefs = [] ∧
    ((exampleStep "org.repo" none []).Run (fun _ => none)).err
      = some (Error.forReason "building_image_from_source"
          (Error.errorf "nothing to build source image from, no refs")) ∧
    ((exampleStep "org.repo" none []).Run (fun _ => none)).calls = [] :=
  ⟨rfl, rfl,
   Run_no_refs_fails_without_delegate (exampleStep "org.repo" none []) (fun _ => none) rfl rfl⟩

/-- C10 as stated fails: at a step with the single ref `{A,B,workdir=true}`
and a delegate that fails with the error `build failed`, `Run` invokes the
delegate once and returns that error under the reason
`building_image_from_source`, which is not the error the delegate returned. -/
theorem Run_delegate_error_counterexample :
    (exampleStep "" (some ⟨"A", "B", "main", true⟩) []).jobSpec.Refs ≠ none ∧
    ((exampleStep "" (some ⟨"A", "B", "main", true⟩) []).Run
      (fun _ => some (Error.errorf "build failed"))).calls.length = 1 ∧
    ((exampleStep "" (some ⟨"A", "B", "main", true⟩) []).Run
      (fun _ => some (Error.errorf "build failed"))).err
      = some (Error.forReason "building_image_from_source" (Error.errorf "build failed")) ∧
    ((exampleStep "" (some ⟨"A", "B", "main", true⟩) []).Run
      (fun _ => some (Error.errorf "build failed"))).err
      ≠ some (Error.errorf "build failed") := by
  refine ⟨by decide, rfl, rfl, ?_⟩
  intro h
  have h2 : ((exampleStep "" (some ⟨"A", "B", "main", true⟩) []).Run
      (fun _ => some (Error.errorf "build failed"))).err
      = some (Error.forReason "building_image_from_source" (Error.errorf "build failed")) := rfl
  rw [h2] at h
  cases h

/-- C10, amended: for a step whose job spec carries at least one ref, `Run`
invokes the build delegate exactly once, on the build made for the resolved
ref; `run` returns the result of the delegate unmodified; `Run` returns
success when the delegate succeeds and, when the delegate fails with an error,
that error surfaced under the reason `building_image_from_source`. -/
theorem Run_delegates_once_and_tags_error (s : gitSourceStep)
    (handleBuilds : HandleBuildsCall → Option Error)
    (h : s.jobSpec.Refs ≠ none ∨ s.jobSpec.ExtraRefs ≠ []) :
    ∃ r, s.determineRefsWorkdir s.jobSpec.Refs s.jobSpec.ExtraRefs = some r ∧
      (s.Run handleBuilds).calls = [s.handleBuildsCall r] ∧
      (s.run handleBuilds).err = handleBuilds (s.handleBuildsCall r) ∧
      (handleBuilds (s.handleBuildsCall r) = none → (s.Run handleBuilds).err = none) ∧
      ∀ e, handleBuilds (s.handleBuildsCall r) = some e →
        (s.Run handleBuilds).err = some (Error.forReason "building_image_from_source" e) := by
  obtain ⟨r, hr, hrun⟩ := run_of_refs s handleBuilds h
  refine ⟨r, hr, ?_, ?_, ?_, ?_⟩
  · simp [gitSourceStep.Run, hrun]
  · simp [hrun]
  · intro hok
    simp [gitSourceStep.Run, hrun, hok, results.ForReason.ForError]
  · intro e he
    simp [gitSourceStep.Run, hrun, he, results.ForReason.ForError]

/-- C10, amended, at a step with the single ref `{A,B,workdir=true}` and a
delegate that fails with the error `build failed`. -/
theorem Run_delegates_once_and_tags_error_witness :
    ((exampleStep "" (some ⟨"A", "B", "main", true⟩) []).jobSpec.Refs ≠ none
      ∨ (exampleStep "" (some ⟨"A", "B", "main", true⟩) []).jobSpec.ExtraRefs ≠ []) ∧
    ∃ r, (exampleStep "" (some ⟨"A", "B", "main", true⟩) []).determineRefsWorkdir
        (exampleStep "" (some ⟨"A", "B", "main", true⟩) []).jobSpec.Refs
        (exampleStep "" (some ⟨"A", "B", "main", true⟩) []).jobSpec.ExtraRefs = some r ∧
      ((exampleStep "" (some ⟨"A", "B", "main", true⟩) []).Run
        (fun _ => some (Error.errorf "build failed"))).calls
        = [(exampleStep "" (some ⟨"A", "B", "main", true⟩) []).handleBuildsCall r] ∧
      ((exampleStep "" (some ⟨"A", "B", "main", true⟩) []).run
        (fun _ => some (Error.errorf "build failed"))).err
        = (fun _ => some (Error.errorf "build failed"))
            ((exampleStep "" (some ⟨"A", "B", "main", true⟩) []).handleBuildsCall r) ∧
      ((fun _ => some (Error.errorf "build failed"))
          ((exampleStep "" (some ⟨"A", "B", "main", true⟩) []).handleBuildsCall r) = none →
        ((exampleStep "" (some ⟨"A", "B", "main", true⟩) []).Run
          (fun _ => some (Error.errorf "build failed"))).err = none) ∧
      ∀ e, (fun _ => some (Error.errorf "build failed"))
          ((exampleStep "" (some ⟨"A", "B", "main", true⟩) []).handleBuildsCall r) = some e →
        ((exampleStep "" (some ⟨"A", "B", "main", true⟩) []).Run
          (fun _ => some (Error.errorf "build failed"))).err
          = some (Error.forReason "building_image_from_source" e) :=
  ⟨Or.inl (by decide),
   Run_delegates_once_and_tags_error (exampleStep "" (some ⟨"A", "B", "main", true⟩) [])
     (fun _ => some (Error.errorf "build failed")) (Or.inl (by decide))⟩

/-! ## The architecture set -/

theorem mem_insertKey (s : sets.Set) (item a : String) :
    a ∈ (s.insertKey item).keys ↔ a ∈ s.keys ∨ a = item := by
  unfold sets.Set.insertKey
  by_cases h : item ∈ s.keys
  · rw [if_pos h]
    constructor
    · exact Or.inl
    · rintro (h1 | rfl)
      · exact h1
      · exact h
  · rw [if_neg h]
    simp

theorem nodup_insertKey (s : sets.Set) (item : String) (h : s.keys.Nodup) :
    (s.insertKey item).keys.Nodup := by
  unfold sets.Set.insertKey
  by_cases hm : item ∈ s.keys
  · rw [if_pos hm]; exact h
  · rw [if_neg hm]
    refine List.Nodup.append h (List.nodup_singleton item) ?_
    intro a ha hb
    rw [List.mem_singleton] at hb
    exact hm (hb ▸ ha)

theorem mem_Insert (items : List String) :
    ∀ (s : sets.Set) (a : String), a ∈ (s.Insert items).keys ↔ a ∈ s.keys ∨ a ∈ items := by
  induction items with
  | nil => intro s a; simp [sets.Set.Insert]
  | cons x rest ih =>
    intro s a
    have hstep : s.Insert (x :: rest) = (s.insertKey x).Insert rest := rfl
    rw [hstep, ih, mem_insertKey, List.mem_cons, or_assoc]

theorem nodup_Insert (items : List String) :
    ∀ (s : sets.Set), s.keys.Nodup → (s.Insert items).keys.Nodup := by
  induction items with
  | nil => intro s h; exact h
  | cons x rest ih =>
    intro s h
    have hstep : s.Insert (x :: rest) = (s.insertKey x).Insert rest := rfl
    rw [hstep]
    exact ih _ (nodup_insertKey s x h)

theorem AddArchitecturesSeq_cons (s : gitSourceStep) (archs : List String)
    (calls : List (List String)) :
    s.AddArchitecturesSeq (archs :: calls) = (s.AddArchitectures archs).AddArchitecturesSeq calls :=
  rfl

theorem AddArchitecturesSeq_append (s : gitSourceStep) (pre post : List (List String)) :
    s.AddArchitecturesSeq (pre ++ post) = (s.AddArchitecturesSeq pre).AddArchitecturesSeq post := by
  simp [gitSourceStep.AddArchitecturesSeq, List.foldl_append]

theorem mem_AddArchitecturesSeq (calls : List (List String)) :
    ∀ (s : gitSourceStep) (a : String),
      a ∈ (s.AddArchitecturesSeq calls).architectures.keys ↔
        a ∈ s.architectures.keys ∨ ∃ archs ∈ calls, a ∈ archs := by
  induction calls with
  | nil => intro s a; simp [gitSourceStep.AddArchitecturesSeq]
  | cons archs rest ih =>
    intro s a
    rw [AddArchitecturesSeq_cons, ih]
    have hadd : (s.AddArchitectures archs).architectures = s.architectures.Insert archs := rfl
    rw [hadd, mem_Insert]
    simp only [List.mem_cons, exists_eq_or_imp, or_assoc]

theorem nodup_AddArchitecturesSeq (calls : List (List String)) :
    ∀ (s : gitSourceStep), s.architectures.keys.Nodup →
      (s.AddArchitecturesSeq calls).architectures.keys.Nodup := by
  induction calls with
  | nil => intro s h; exact h
  | cons archs rest ih =>
    intro s h
    rw [AddArchitecturesSeq_cons]
    exact ih _ (nodup_Insert archs s.architectures h)

theorem AddArchitecturesSeq_frame (calls : List (List String)) :
    ∀ (s : gitSourceStep),
      (s.AddArchitecturesSeq calls).config = s.config ∧
      (s.AddArchitecturesSeq calls).jobSpec = s.jobSpec ∧
      (s.AddArchitecturesSeq calls).cloneAuthConfig = s.cloneAuthConfig := by
  induction calls with
  | nil => intro s; exact ⟨rfl, rfl, rfl⟩
  | cons archs rest ih =>
    intro s
    rw [AddArchitecturesSeq_cons]
    exact ih (s.AddArchitectures archs)

/-- C11: for a step whose architecture set holds each key once, as every Go
map does, and a sequence of `AddArchitectures` calls split anywhere into a
prefix and the rest: the set returned by `ResolveMultiArch` after the whole
sequence contains the set returned after the prefix, a single further call
removes no element, and every identifier occurs at most once in the final
set, however often it was inserted. -/
theorem AddArchitectures_grows_without_duplicates (s : gitSourceStep)
    (hwf : s.architectures.keys.Nodup) (pre post : List (List String)) :
    (∀ a, a ∈ (s.AddArchitecturesSeq pre).ResolveMultiArch.UnsortedList →
      a ∈ (s.AddArchitecturesSeq (pre ++ post)).ResolveMultiArch.UnsortedList) ∧
    (∀ archs a, a ∈ (s.AddArchitecturesSeq pre).ResolveMultiArch.UnsortedList →
      a ∈ ((s.AddArchitecturesSeq pre).AddArchitectures archs).ResolveMultiArch.UnsortedList) ∧
    (∀ a, (s.AddArchitecturesSeq (pre ++ post)).ResolveMultiArch.UnsortedList.count a ≤ 1) := by
  refine ⟨?_, ?_, ?_⟩
  · intro a ha
    rw [AddArchitecturesSeq_append]
    exact (mem_AddArchitecturesSeq post (s.AddArchitecturesSeq pre) a).mpr (Or.inl ha)
  · intro archs a ha
    exact (mem_Insert archs (s.AddArchitecturesSeq pre).architectures a).mpr (Or.inl ha)
  · exact List.nodup_iff_count_le_one.mp (nodup_AddArchitecturesSeq (pre ++ post) s hwf)

/-- C11 at a step fresh from the constructor, the prefix
`[[amd64, arm64], [amd64]]` and the rest `[[arm64, arm64, s390x]]`: the final
set is `amd64, arm64, s390x`, each once. -/
theorem AddArchitectures_grows_without_duplicates_witness :
    (exampleStep "" none []).architectures.keys.Nodup ∧
    ((∀ a, a ∈ ((exampleStep "" none []).AddArchitecturesSeq
          [["amd64", "arm64"], ["amd64"]]).ResolveMultiArch.UnsortedList →
        a ∈ ((exampleStep "" none []).AddArchitecturesSeq
          ([["amd64", "arm64"], ["amd64"]] ++ [["arm64", "arm64", "s390x"]])).ResolveMultiArch.UnsortedList) ∧
      (∀ archs a, a ∈ ((exampleStep "" none []).AddArchitecturesSeq
          [["amd64", "arm64"], ["amd64"]]).ResolveMultiArch.UnsortedList →
        a ∈ (((exampleStep "" none []).AddArchitecturesSeq
          [["amd64", "arm64"], ["amd64"]]).AddArchitectures archs).ResolveMultiArch.UnsortedList) ∧
      (∀ a, ((exampleStep "" none []).AddArchitecturesSeq
          ([["amd64", "arm64"], ["amd64"]] ++ [["arm64", "arm64", "s390x"]])).ResolveMultiArch.UnsortedList.count a
        ≤ 1)) ∧
    ((exampleStep "" none []).AddArchitecturesSeq
      ([["amd64", "arm64"], ["amd64"]] ++ [["arm64", "arm64", "s390x"]])).ResolveMultiArch.UnsortedList
      = ["amd64", "arm64", "s390x"] :=
  ⟨by decide,
   AddArchitectures_grows_without_duplicates (exampleStep "" none []) (by decide)
     [["amd64", "arm64"], ["amd64"]] [["arm64", "arm64", "s390x"]],
   by decide⟩

/-! ## The build handed to the delegate -/

/-- C12: for a step whose resolved ref is `r`, the one build handed to the
delegate has git ref `r.BaseRef`; without a clone-auth config its clone URI is
`https://github.com/<org>/<repo>.git` and its source-secret name is empty;
with one, the clone URI is what `getCloneURI` of the config returns for the
org and repo of `r` and the secret name is that of the config. -/
theorem Run_git_source (s : gitSourceStep) (handleBuilds : HandleBuildsCall → Option Error)
    (r : Refs) (hr : s.determineRefsWorkdir s.jobSpec.Refs s.jobSpec.ExtraRefs = some r) :
    ∃ call, (s.Run handleBuilds).calls = [call] ∧
      call.build.source.Git.Ref = r.BaseRef ∧
      (s.cloneAuthConfig = none →
        call.build.source.Git.URI = "https://github.com/" ++ r.Org ++ "/" ++ r.Repo ++ ".git" ∧
        call.build.source.SourceSecretName = "") ∧
      (∀ c, s.cloneAuthConfig = some c →
        call.build.source.Git.URI = c.getCloneURI r.Org r.Repo ∧
        call.build.source.SourceSecretName = c.SecretName) := by
  refine ⟨s.handleBuildsCall r, by simp [gitSourceStep.Run, gitSourceStep.run, hr], ?_, ?_, ?_⟩
  · cases hc : s.cloneAuthConfig <;> simp [gitSourceStep.handleBuildsCall, hc]
  · intro hc
    simp [gitSourceStep.handleBuildsCall, hc]
  · intro c hc
    simp [gitSourceStep.handleBuildsCall, hc]

/-- C12 at a step with the single ref `{A,B,main,workdir=true}` and no
clone-auth config: the clone URI is `https://github.com/A/B.git`. -/
theorem Run_git_source_witness :
    (exampleStep "" (some ⟨"A", "B", "main", true⟩) []).determineRefsWorkdir
        (exampleStep "" (some ⟨"A", "B", "main", true⟩) []).jobSpec.Refs
        (exampleStep "" (some ⟨"A", "B", "main", true⟩) []).jobSpec.ExtraRefs
      = some ⟨"A", "B", "main", true⟩ ∧
    (∃ call, ((exampleStep "" (some ⟨"A", "B", "main", true⟩) []).Run (fun _ => none)).calls
        = [call] ∧
      call.build.source.Git.Ref = (⟨"A", "B", "main", true⟩ : Refs).BaseRef ∧
      ((exampleStep "" (some ⟨"A", "B", "main", true⟩) []).cloneAuthConfig = none →
        call.build.source.Git.URI
          = "https://github.com/" ++ (⟨"A", "B", "main", true⟩ : Refs).Org ++ "/"
            ++ (⟨"A", "B", "main", true⟩ : Refs).Repo ++ ".git" ∧
        call.build.source.SourceSecretName = "") ∧
      (∀ c, (exampleStep "" (some ⟨"A", "B", "main", true⟩) []).cloneAuthConfig = some c →
        call.build.source.Git.URI
          = c.getCloneURI (⟨"A", "B", "main", true⟩ : Refs).Org (⟨"A", "B", "main", true⟩ : Refs).Repo ∧
        call.build.source.SourceSecretName = c.SecretName)) ∧
    (((exampleStep "" (some ⟨"A", "B", "main", true⟩) []).Run (fun _ => none)).calls.map
      (fun call => call.build.source.Git.URI)) = ["https://github.com/A/B.git"] :=
  ⟨by decide,
   Run_git_source (exampleStep "" (some ⟨"A", "B", "main", true⟩) []) (fun _ => none)
     ⟨"A", "B", "main", true⟩ (by decide),
   by decide⟩

/-- C13: for a step built by `GitSourceStep` with at least one ref, then any
sequence of `AddArchitectures` calls, then `Run`: the architecture list handed
to the delegate holds exactly the identifiers passed to those calls, each
once, and is empty when no identifier was passed. -/
theorem Run_architectures_at_run_time (config : ProjectDirectoryImageBuildInputs)
    (resources buildClient podClient : Handle) (jobSpec : JobSpec)
    (cloneAuthConfig : Option CloneAuthConfig) (pullSecret : Option Handle)
    (metricsAgent : Handle) (calls : List (List String))
    (handleBuilds : HandleBuildsCall → Option Error)
    (h : jobSpec.Refs ≠ none ∨ jobSpec.ExtraRefs ≠ []) :
    ∃ call,
      (((GitSourceStep config resources buildClient podClient jobSpec cloneAuthConfig pullSecret
          metricsAgent).AddArchitecturesSeq calls).Run handleBuilds).calls = [call] ∧
      (∀ a, a ∈ call.architectures ↔ ∃ archs ∈ calls, a ∈ archs) ∧
      call.architectures.Nodup ∧
      ((∀ archs ∈ calls, archs = []) → call.architectures = []) := by
  have hframe := AddArchitecturesSeq_frame calls (GitSourceStep config resources buildClient
    podClient jobSpec cloneAuthConfig pullSecret metricsAgent)
  have hjob : ((GitSourceStep config resources buildClient podClient jobSpec cloneAuthConfig
      pullSecret metricsAgent).AddArchitecturesSeq calls).jobSpec = jobSpec := hframe.2.1
  have h2 : ((GitSourceStep config resources buildClient podClient jobSpec cloneAuthConfig
      pullSecret metricsAgent).AddArchitecturesSeq calls).jobSpec.Refs ≠ none ∨
      ((GitSourceStep config resources buildClient podClient jobSpec cloneAuthConfig
      pullSecret metricsAgent).AddArchitecturesSeq calls).jobSpec.ExtraRefs ≠ [] := by
    rw [hjob]; exact h
  obtain ⟨r, _, hrun⟩ := run_of_refs _ handleBuilds h2
  have hmem : ∀ a, a ∈ ((GitSourceStep config resources buildClient podClient jobSpec
      cloneAuthConfig pullSecret metricsAgent).AddArchitecturesSeq calls).architectures.keys ↔
      ∃ archs ∈ calls, a ∈ archs := by
    intro a
    rw [mem_AddArchitecturesSeq]
    simp [GitSourceStep, sets.New]
  refine ⟨((GitSourceStep config resources buildClient podClient jobSpec cloneAuthConfig
    pullSecret metricsAgent).AddArchitecturesSeq calls).handleBuildsCall r,
    by simp [gitSourceStep.Run, hrun], hmem, ?_, ?_⟩
  · exact nodup_AddArchitecturesSeq calls (GitSourceStep config resources buildClient podClient
      jobSpec cloneAuthConfig pullSecret metricsAgent) (by simp [GitSourceStep, sets.New])
  · intro hall
    refine List.eq_nil_iff_forall_not_mem.mpr ?_
    intro a ha
    obtain ⟨archs, hin, hmem2⟩ := (hmem a).mp ha
    rw [hall archs hin] at hmem2
    simp at hmem2

/-- C13 at a step with one ref widened by the calls `[amd64]` and
`[arm64, amd64]` after construction: the delegate receives `amd64, arm64`. -/
theorem Run_architectures_at_run_time_witness :
    ((⟨some ⟨"A", "B", "main", true⟩, []⟩ : JobSpec).Refs ≠ none
      ∨ (⟨some ⟨"A", "B", "main", true⟩, []⟩ : JobSpec).ExtraRefs ≠ []) ∧
    (∃ call,
      (((GitSourceStep ⟨"", "", none, ""⟩ ⟨0⟩ ⟨1⟩ ⟨2⟩ ⟨some ⟨"A", "B", "main", true⟩, []⟩ none none
          ⟨3⟩).AddArchitecturesSeq [["amd64"], ["arm64", "amd64"]]).Run (fun _ => none)).calls
        = [call] ∧
      (∀ a, a ∈ call.architectures ↔ ∃ archs ∈ [["amd64"], ["arm64", "amd64"]], a ∈ archs) ∧
      call.architectures.Nodup ∧
      ((∀ archs ∈ [["amd64"], ["arm64", "amd64"]], archs = []) → call.architectures = [])) ∧
    ((((GitSourceStep ⟨"", "", none, ""⟩ ⟨0⟩ ⟨1⟩ ⟨2⟩ ⟨some ⟨"A", "B", "main", true⟩, []⟩ none none
        ⟨3⟩).AddArchitecturesSeq [["amd64"], ["arm64", "amd64"]]).Run (fun _ => none)).calls.map
      (fun call => call.architectures)) = [["amd64", "arm64"]] :=
  ⟨Or.inl (by decide),
   Run_architectures_at_run_time ⟨"", "", none, ""⟩ ⟨0⟩ ⟨1⟩ ⟨2⟩ ⟨some ⟨"A", "B", "main", true⟩, []⟩
     none none ⟨3⟩ [["amd64"], ["arm64", "amd64"]] (fun _ => none) (Or.inl (by decide)),
   by decide⟩

theorem Name_eq (s : gitSourceStep) :
    s.Name = if s.config.Ref = "" then "root" else "root-" ++ s.config.Ref := by
  by_cases h : s.config.Ref = ""
  · simp [gitSourceStep.Name, h, PipelineImageStreamTagReferenceRoot]
  · have hcat : PipelineImageStreamTagReferenceRoot ++ "-" ++ s.config.Ref
        = "root-" ++ s.config.Ref := by
      rw [show PipelineImageStreamTagReferenceRoot ++ "-" = "root-" from by decide]
    simp [gitSourceStep.Name, h, hcat]

theorem Creates_eq_Name (s : gitSourceStep) : s.Creates = [StepLink.InternalImageLink s.Name] :=
  rfl

theorem Name_injective (s1 s2 : gitSourceStep) (h : s1.Name = s2.Name) :
    s1.config.Ref = s2.config.Ref := by
  rw [Name_eq, Name_eq] at h
  have hroot : "root".length = 4 := by decide
  have hdash : "root-".length = 5 := by decide
  by_cases h1 : s1.config.Ref = "" <;> by_cases h2 : s2.config.Ref = ""
  · rw [h1, h2]
  · rw [if_pos h1, if_neg h2] at h
    have hlen := congrArg String.length h
    rw [String.length_append] at hlen
    omega
  · rw [if_neg h1, if_pos h2] at h
    have hlen := congrArg String.length h
    rw [String.length_append] at hlen
    omega
  · rw [if_neg h1, if_neg h2] at h
    have hdata := congrArg String.data h
    rw [String.data_append, String.data_append] at hdata
    exact String.ext (List.append_cancel_left hdata)

/-- C14: for a step with at least one ref, the output tag of the one build that
`Run` hands to the delegate is the name returned by `Name` and the tag of the
single link of `Creates`: `root`, or `root-` followed by the selector when the
selector is non-empty. -/
theorem Run_toTag_eq_Name_eq_Creates (s : gitSourceStep)
    (handleBuilds : HandleBuildsCall → Option Error)
    (h : s.jobSpec.Refs ≠ none ∨ s.jobSpec.ExtraRefs ≠ []) :
    ∃ call, (s.Run handleBuilds).calls = [call] ∧
      call.build.toTag = s.Name ∧
      s.Creates = [StepLink.InternalImageLink s.Name] ∧
      s.Name = (if s.config.Ref = "" then "root" else "root-" ++ s.config.Ref) := by
  obtain ⟨r, _, hrun⟩ := run_of_refs s handleBuilds h
  exact ⟨s.handleBuildsCall r, by simp [gitSourceStep.Run, hrun], rfl, rfl, Name_eq s⟩

/-- C14 at a step with selector `org.repo` and the single ref
`{org,repo,main,workdir=false}`: the build is tagged `root-org.repo`. -/
theorem Run_toTag_eq_Name_eq_Creates_witness :
    ((exampleStep "org.repo" (some ⟨"org", "repo", "main", false⟩) []).jobSpec.Refs ≠ none
      ∨ (exampleStep "org.repo" (some ⟨"org", "repo", "main", false⟩) []).jobSpec.ExtraRefs ≠ []) ∧
    (∃ call, ((exampleStep "org.repo" (some ⟨"org", "repo", "main", false⟩) []).Run
        (fun _ => none)).calls = [call] ∧
      call.build.toTag = (exampleStep "org.repo" (some ⟨"org", "repo", "main", false⟩) []).Name ∧
      (exampleStep "org.repo" (some ⟨"org", "repo", "main", false⟩) []).Creates
        = [StepLink.InternalImageLink
            (exampleStep "org.repo" (some ⟨"org", "repo", "main", false⟩) []).Name] ∧
      (exampleStep "org.repo" (some ⟨"org", "repo", "main", false⟩) []).Name
        = (if (exampleStep "org.repo" (some ⟨"org", "repo", "main", false⟩) []).config.Ref = ""
            then "root"
            else "root-"
              ++ (exampleStep "org.repo" (some ⟨"org", "repo", "main", false⟩) []).config.Ref)) ∧
    (((exampleStep "org.repo" (some ⟨"org", "repo", "main", false⟩) []).Run
      (fun _ => none)).calls.map (fun call => call.build.toTag)) = ["root-org.repo"] :=
  ⟨Or.inl (by decide),
   Run_toTag_eq_Name_eq_Creates (exampleStep "org.repo" (some ⟨"org", "repo", "main", false⟩) [])
     (fun _ => none) (Or.inl (by decide)),
   by decide⟩

/-! ## The contract of the step -/

/-- C15: the output tag is injective in the reference selector: two steps
whose selectors differ, either of which may be empty, have different names and
create different links. -/
theorem output_tag_injective (s1 s2 : gitSourceStep) (h : s1.config.Ref ≠ s2.config.Ref) :
    s1.Name ≠ s2.Name ∧ s1.Creates ≠ s2.Creates := by
  constructor
  · exact fun hn => h (Name_injective s1 s2 hn)
  · intro hc
    rw [Creates_eq_Name, Creates_eq_Name] at hc
    have hn : s1.Name = s2.Name := by
      injection hc with hhead _
      injection hhead
    exact h (Name_injective s1 s2 hn)

/-- C15 at the empty selector against the selector `org.repo`: `root` against
`root-org.repo`. -/
theorem output_tag_injective_witness :
    (exampleStep "" none []).config.Ref ≠ (exampleStep "org.repo" none []).config.Ref ∧
    ((exampleStep "" none []).Name ≠ (exampleStep "org.repo" none []).Name ∧
      (exampleStep "" none []).Creates ≠ (exampleStep "org.repo" none []).Creates) :=
  ⟨by decide,
   output_tag_injective (exampleStep "" none []) (exampleStep "org.repo" none []) (by decide)⟩

/-- C16: `Creates` is a function of the configured reference selector alone:
two steps with equal selectors return equal lists, whatever their job spec,
resources, clone-auth config, pull secret and architecture set. -/
theorem Creates_depends_on_selector_only (s1 s2 : gitSourceStep)
    (h : s1.config.Ref = s2.config.Ref) : s1.Creates = s2.Creates := by
  unfold gitSourceStep.Creates
  rw [h]

/-- C16 at two steps with selector `org.repo` that differ in their refs and in
their architecture set. -/
theorem Creates_depends_on_selector_only_witness :
    (exampleStep "org.repo" none []).config.Ref
      = ((exampleStep "org.repo" (some ⟨"org", "repo", "main", true⟩)
          [⟨"A", "B", "main", false⟩]).AddArchitectures ["arm64"]).config.Ref ∧
    (exampleStep "org.repo" none []).Creates
      = ((exampleStep "org.repo" (some ⟨"org", "repo", "main", true⟩)
          [⟨"A", "B", "main", false⟩]).AddArchitectures ["arm64"]).Creates :=
  ⟨rfl,
   Creates_depends_on_selector_only (exampleStep "org.repo" none [])
     ((exampleStep "org.repo" (some ⟨"org", "repo", "main", true⟩)
       [⟨"A", "B", "main", false⟩]).AddArchitectures ["arm64"]) rfl⟩

/-- C17: `Validate` returns success, never an error, for every step in every
state. -/
theorem Validate_never_fails (s : gitSourceStep) : s.Validate = none := rfl

/-- C18: `AddArchitectures` changes only the architecture set: every other
field of the step is unchanged, and so are `Requires`, `Creates`, `Name` and
the ref chosen by `determineRefsWorkdir`. -/
theorem AddArchitectures_frame (s : gitSourceStep) (archs : List String) :
    (s.AddArchitectures archs).config = s.config ∧
    (s.AddArchitectures archs).jobSpec = s.jobSpec ∧
    (s.AddArchitectures archs).resources = s.resources ∧
    (s.AddArchitectures archs).cloneAuthConfig = s.cloneAuthConfig ∧
    (s.AddArchitectures archs).pullSecret = s.pullSecret ∧
    (s.AddArchitectures archs).buildClient = s.buildClient ∧
    (s.AddArchitectures archs).podClient = s.podClient ∧
    (s.AddArchitectures archs).metricsAgent = s.metricsAgent ∧
    (s.AddArchitectures archs).Requires = s.Requires ∧
    (s.AddArchitectures archs).Creates = s.Creates ∧
    (s.AddArchitectures archs).Name = s.Name ∧
    (∀ refs extraRefs,
      (s.AddArchitectures archs).determineRefsWorkdirIndex refs extraRefs
        = s.determineRefsWorkdirIndex refs extraRefs ∧
      (s.AddArchitectures archs).determineRefsWorkdir refs extraRefs
        = s.determineRefsWorkdir refs extraRefs) ∧
    (s.AddArchitectures archs).architectures = s.architectures.Insert archs :=
  ⟨rfl, rfl, rfl, rfl, rfl, rfl, rfl, rfl, rfl, rfl, rfl, fun _ _ => ⟨rfl, rfl⟩, rfl⟩

/-- C19 fails on the code: at a step with selector `org.repo`, `Description`
says the image is tagged as `root`, while `Name` is `root-org.repo` and
`Creates` holds the link of tag `root-org.repo`. -/
theorem Description_tag_differs_from_Name :
    (exampleStep "org.repo" none []).Description
      = "Build git source code into an image and tag it as root" ∧
    (exampleStep "org.repo" none []).Name = "root-org.repo" ∧
    (exampleStep "org.repo" none []).Creates = [StepLink.InternalImageLink "root-org.repo"] ∧
    (exampleStep "org.repo" none []).Description
      ≠ "Build git source code into an image and tag it as "
        ++ (exampleStep "org.repo" none []).Name := by
  decide

end steps
